import Mathlib

/-!
Verification of the gRPC chain-sync service of the dolos node
(src/serve/grpc/sync.rs) against its natural-language specification.

The handlers `fetch_block`, `dump_history` and `follow_tip` are embedded as
pure Lean functions over an abstract store interface `StoreIface` whose fields
mirror the fallible storage operations the Rust code calls
(`chain.get_block`, `chain.read_chain_page`, `wal.find_wal_seq`).  Rust
`Result` becomes `Except`, `Option` stays `Option`, byte strings become
`List Nat`, and a panic (the `unwrap` inside `bytes_to_hash`) is modelled as
the `none` case of an outer `Option` on the handler result.

The storage engine itself (pallas rolldb) is not part of the shown sources;
where a claim depends on its behaviour the relevant contract is modelled from
the specification text and marked as such in the doc comment.
-/

deriving instance DecidableEq for Except

/-- gRPC status codes actually produced by sync.rs: `Status::internal(msg)`
and `Status::not_found(msg)`. -/
inductive Status where
  | internal (msg : String)
  | notFound (msg : String)
deriving DecidableEq

/-- `u5c::sync::BlockRef`: a chain point made of a slot index and a hash. -/
structure BlockRef where
  index : Nat
  hash : List Nat
deriving DecidableEq

/-- `u5c::sync::AnyChainBlock`: the external block envelope.  The mapping from
raw stored bytes to the envelope (`pallas map_block_cbor`) is an external
stateless codec, modelled as an opaque wrapper around the raw bytes. -/
structure AnyChainBlock where
  chain : List Nat
deriving DecidableEq

/-- Embeds `raw_to_anychain` from sync.rs: wrap raw block bytes into the
external envelope. -/
def raw_to_anychain (raw : List Nat) : AnyChainBlock := { chain := raw }

/-- `wal::Log`: the WAL record with its four variants, sequence-agnostic
payloads as in the source (`Apply(point, bytes)`, `Undo(point, bytes)`,
`Mark(slot, hash, _)`, `Origin`). -/
inductive Log where
  | apply (slot : Nat) (hash : List Nat) (block : List Nat)
  | undo (slot : Nat) (hash : List Nat) (block : List Nat)
  | mark (slot : Nat) (hash : List Nat) (body : List Nat)
  | origin
deriving DecidableEq

/-- `u5c::sync::follow_tip_response::Action` (renamed to avoid a clash). -/
inductive TipAction where
  | apply (block : AnyChainBlock)
  | undo (block : AnyChainBlock)
  | reset (point : BlockRef)
deriving DecidableEq

/-- `u5c::sync::FollowTipResponse`: the streamed envelope; `action` is an
optional field on the wire (`None` for the Origin record). -/
structure FollowTipResponse where
  action : Option TipAction
deriving DecidableEq

/-- Embeds `roll_to_tip_response` from sync.rs: map a WAL log record to the
external envelope.  `Origin` yields a response whose `action` is `none`. -/
def roll_to_tip_response : Log → FollowTipResponse
  | Log.apply _ _ block => { action := some (TipAction.apply (raw_to_anychain block)) }
  | Log.undo _ _ block => { action := some (TipAction.undo (raw_to_anychain block)) }
  | Log.mark slot hash _ => { action := some (TipAction.reset { index := slot, hash := hash }) }
  | Log.origin => { action := none }

/-- Embeds `bytes_to_hash` from sync.rs.  The Rust code does
`raw.try_into().unwrap()`, which panics unless the slice has exactly 32
bytes; the panic is modelled as `none`. -/
def bytes_to_hash (raw : List Nat) : Option (List Nat) :=
  if raw.length = 32 then some raw else none

/-- The storage operations sync.rs calls, with their Rust `Result` failure
modes.  `Except.error ()` stands for an underlying storage-engine error. -/
structure StoreIface where
  get_block : List Nat → Except Unit (Option (List Nat))
  read_chain_page : Nat → Nat → Except Unit (List (Nat × List Nat))
  find_wal_seq : Nat × List Nat → Except Unit (Option Nat)

/-- The lazy pipeline inside `fetch_block`:
`refs.iter().map(bytes_to_hash).map(get_block).collect::<Result<Vec<_>,_>>()`.
Evaluation is element by element: a bad-length hash panics (outer `none`)
unless an earlier storage error already short-circuited the collect. -/
def fetch_collect (s : StoreIface) : List BlockRef → Option (Except Unit (List (Option (List Nat))))
  | [] => some (Except.ok [])
  | r :: rs =>
    match bytes_to_hash r.hash with
    | none => none
    | some h =>
      match s.get_block h with
      | Except.error e => some (Except.error e)
      | Except.ok b =>
        match fetch_collect s rs with
        | none => none
        | some (Except.error e) => some (Except.error e)
        | some (Except.ok bs) => some (Except.ok (b :: bs))

/-- Embeds the `fetch_block` handler from sync.rs.  On success the found
blocks are flattened (`.iter().flatten()`), silently dropping `None`
lookups; a storage error becomes `Status.internal`; a malformed hash
panics (`none`). -/
def fetch_block (s : StoreIface) (refs : List BlockRef) :
    Option (Except Status (List AnyChainBlock)) :=
  match fetch_collect s refs with
  | none => none
  | some (Except.error _) => some (Except.error (Status.internal "cant query block"))
  | some (Except.ok blocks) =>
      some (Except.ok ((blocks.filterMap id).map raw_to_anychain))

/-- `u5c::sync::DumpHistoryRequest`. -/
structure DumpHistoryRequest where
  start_token : Option BlockRef
  max_items : Nat
deriving DecidableEq

/-- `u5c::sync::DumpHistoryResponse`. -/
structure DumpHistoryResponse where
  block : List AnyChainBlock
  next_token : Option BlockRef
deriving DecidableEq

/-- `msg.start_token.map(|r| r.index).unwrap_or_default()` from
`dump_history`: only the slot component of the token is consulted. -/
def start_slot (msg : DumpHistoryRequest) : Nat :=
  (msg.start_token.map BlockRef.index).getD 0

/-- The page that remains after `dump_history` removes the extra element:
`page.remove(len - 1)` fires exactly when `page.len() == len`, and removes
the last element. -/
def kept_page (page : List (Nat × List Nat)) (len : Nat) : List (Nat × List Nat) :=
  if page.length = len then page.dropLast else page

/-- The continuation token `dump_history` computes: the point of the removed
extra element when the page came back full, absent otherwise. -/
def next_token_of (page : List (Nat × List Nat)) (len : Nat) : Option BlockRef :=
  if page.length = len then
    page.getLast?.map (fun e => { index := e.1, hash := e.2 })
  else none

/-- First collection pass of `dump_history`:
`page.into_iter().map(get_block).collect::<Result<Vec<_>,_>>()`, which
short-circuits on the first storage error. -/
def get_blocks (s : StoreIface) : List (Nat × List Nat) → Except Unit (List (Option (List Nat)))
  | [] => Except.ok []
  | e :: rest =>
    match s.get_block e.2 with
    | Except.error err => Except.error err
    | Except.ok o =>
      match get_blocks s rest with
      | Except.error err => Except.error err
      | Except.ok os => Except.ok (o :: os)

/-- Second collection pass of `dump_history`:
`map(|x| x.ok_or(internal)).collect::<Result<Vec<_>,_>>()`, which
short-circuits on the first missing block content. -/
def require_blocks : List (Option (List Nat)) → Except Status (List (List Nat))
  | [] => Except.ok []
  | some b :: rest => (require_blocks rest).map (fun bs => b :: bs)
  | none :: _ => Except.error (Status.internal "cant query history")

/-- The two collection passes of `dump_history` over the kept page: resolve
every listed hash to content, failing the whole page on a storage error or
on content that is unexpectedly absent. -/
def resolve_blocks (s : StoreIface) (page : List (Nat × List Nat)) :
    Except Status (List (List Nat)) :=
  match get_blocks s page with
  | Except.error _ => Except.error (Status.internal "cant query history")
  | Except.ok opts => require_blocks opts

/-- Embeds the `dump_history` handler from sync.rs.  It reads
`max_items + 1` entries starting at the token slot, withholds the extra
entry as the continuation token, and resolves the remaining hashes to
content, failing the whole call on any storage error or missing block. -/
def dump_history (s : StoreIface) (msg : DumpHistoryRequest) :
    Except Status DumpHistoryResponse :=
  match s.read_chain_page (start_slot msg) (msg.max_items + 1) with
  | Except.error _ => Except.error (Status.internal "cant query history")
  | Except.ok page =>
    match resolve_blocks s (kept_page page (msg.max_items + 1)) with
    | Except.error e => Except.error e
    | Except.ok raws =>
        Except.ok { block := raws.map raw_to_anychain,
                    next_token := next_token_of page (msg.max_items + 1) }

/-- `u5c::sync::FollowTipRequest`. -/
structure FollowTipRequest where
  intersect : List BlockRef
deriving DecidableEq

/-- The eager candidate conversion at the top of `follow_tip`:
`request.intersect.iter().map(|x| (x.index, bytes_to_hash(&x.hash))).collect()`.
`none` marks the panic on a hash that is not 32 bytes. -/
def collect_points : List BlockRef → Option (List (Nat × List Nat))
  | [] => some []
  | x :: rest =>
    match bytes_to_hash x.hash with
    | none => none
    | some h => (collect_points rest).map (fun ps => (x.index, h) :: ps)

/-- The converted candidate list of a FollowTip request. -/
def intersects_of (req : FollowTipRequest) : Option (List (Nat × List Nat)) :=
  collect_points req.intersect

/-- The candidate loop of `follow_tip`: try `find_wal_seq` on each candidate
in order; a storage error fails with internal, the first hit starts the
stream there, and exhausting the list yields the not-found status. -/
def follow_tip_loop (s : StoreIface) : List (Nat × List Nat) → Except Status (Option Nat)
  | [] => Except.error (Status.notFound "no intersect found in mutable part of chain")
  | i :: rest =>
    match s.find_wal_seq i with
    | Except.error _ => Except.error (Status.internal "kvtable error")
    | Except.ok (some seq) => Except.ok (some seq)
    | Except.ok none => follow_tip_loop s rest

/-- Embeds the `follow_tip` handler from sync.rs up to the choice of the
`RollStream` cursor: the successful value is the argument passed to
`RollStream::stream_wal` (`none` = stream the WAL from its start, `some seq`
= resume from sequence number `seq`).  The outer `Option` is the panic of
`bytes_to_hash` on a malformed candidate hash. -/
def follow_tip (s : StoreIface) (req : FollowTipRequest) :
    Option (Except Status (Option Nat)) :=
  match intersects_of req with
  | none => none
  | some [] => some (Except.ok none)
  | some (i :: rest) => some (follow_tip_loop s (i :: rest))

/-- Modelled from the spec: `RollStream::stream_wal` (pallas rolldb, not in
the shown sources).  The WAL is a list of records whose position is its
sequence number; a cursor of `none` starts at the very first entry, a cursor
of `some seq` resumes exactly at the next entry after `seq`. -/
def stream_wal (entries : List Log) : Option Nat → List Log
  | none => entries
  | some seq => entries.drop (seq + 1)

/-- The items a FollowTip subscriber receives: every WAL record produced by
the stream is mapped through `roll_to_tip_response` and emitted (sync.rs
applies `.map` to the stream with no filtering). -/
def follow_tip_items (entries : List Log) (start : Option Nat) : List FollowTipResponse :=
  (stream_wal entries start).map roll_to_tip_response

/-- Modelled from the spec: the canonical Chain Store state — a slot-ordered
index of (slot, hash) entries plus a hash-to-content map. -/
structure ChainState where
  index : List (Nat × List Nat)
  blocks : List Nat → Option (List Nat)

/-- Modelled from the spec: `read_page(from_slot, max_items)` of the Chain
Store returns the (slot, hash) entries at or after `from_slot` in ascending
slot order, at most `len` of them. -/
def read_page_model (st : ChainState) (slot len : Nat) : List (Nat × List Nat) :=
  (st.index.filter (fun e => decide (slot ≤ e.1))).take len

/-- The store interface induced by a concrete, healthy chain state (reads
never fail at the storage layer). -/
def store_of (st : ChainState) : StoreIface where
  get_block := fun h => Except.ok (st.blocks h)
  read_chain_page := fun slot len => Except.ok (read_page_model st slot len)
  find_wal_seq := fun _ => Except.ok none

/-- The client-side pagination driver: repeatedly call `dump_history`,
feeding each `next_token` back, concatenating the returned blocks, with
explicit fuel. -/
def dump_from_token (st : ChainState) (mi : Nat) : Nat → Option BlockRef → List AnyChainBlock
  | 0, _ => []
  | fuel + 1, tok =>
    match dump_history (store_of st) { start_token := tok, max_items := mi } with
    | Except.error _ => []
    | Except.ok resp =>
      resp.block ++
        (match resp.next_token with
         | none => []
         | some t => dump_from_token st mi fuel (some t))

/-- C10: `dump_history` uses only the slot component of `start_token`:
two requests over the same store that differ only in the token hash produce
identical responses. -/
theorem C10_dump_history_ignores_token_hash (s : StoreIface) (slot : Nat)
    (h1 h2 : List Nat) (mi : Nat) :
    dump_history s { start_token := some { index := slot, hash := h1 }, max_items := mi }
      = dump_history s { start_token := some { index := slot, hash := h2 }, max_items := mi } :=
  rfl

/-- C1 counterexample: streaming a WAL whose record is `Origin` does emit an
item downstream (a `FollowTipResponse` with an empty action), contradicting
the claim that no item for `Origin` is ever emitted on the FollowTip
stream. -/
theorem C1_counterexample_origin_item_emitted :
    follow_tip_items [Log.origin] none = [{ action := none }] ∧
    (follow_tip_items [Log.origin] none).length = 1 := by
  exact ⟨rfl, rfl⟩

/-- C1 (amended): `Apply` maps to an apply action carrying the block
content, `Undo` to an undo action carrying the content, `Mark` to a reset
action carrying only the point, and `Origin` to an envelope whose action
field is empty — the `Origin` item is still emitted on the stream (one
response per WAL record, no filtering). -/
theorem C1_roll_to_tip_mapping :
    (∀ slot hash block, roll_to_tip_response (Log.apply slot hash block)
        = { action := some (TipAction.apply (raw_to_anychain block)) }) ∧
    (∀ slot hash block, roll_to_tip_response (Log.undo slot hash block)
        = { action := some (TipAction.undo (raw_to_anychain block)) }) ∧
    (∀ slot hash body, roll_to_tip_response (Log.mark slot hash body)
        = { action := some (TipAction.reset { index := slot, hash := hash }) }) ∧
    roll_to_tip_response Log.origin = { action := none } ∧
    (∀ entries start, follow_tip_items entries start
        = (stream_wal entries start).map roll_to_tip_response) :=
  ⟨fun _ _ _ => rfl, fun _ _ _ => rfl, fun _ _ _ => rfl, rfl, fun _ _ => rfl⟩

/-- A 32-byte hash filled with the byte `b`, used for concrete witnesses. -/
def h32 (b : Nat) : List Nat := List.replicate 32 b

/-- A concrete store used to exercise the handlers on closed inputs: the WAL
reports a hit (sequence 7) exactly for candidates at slot 5. -/
def wStore : StoreIface where
  get_block := fun _ => Except.ok none
  read_chain_page := fun _ _ => Except.ok []
  find_wal_seq := fun p => if p.1 = 5 then Except.ok (some 7) else Except.ok none

theorem follow_tip_eq_loop (s : StoreIface) (req : FollowTipRequest)
    (ps : List (Nat × List Nat)) (hps : intersects_of req = some ps) (hne : ps ≠ []) :
    follow_tip s req = some (follow_tip_loop s ps) := by
  unfold follow_tip
  rw [hps]
  cases ps with
  | nil => exact absurd rfl hne
  | cons i rest => rfl

theorem follow_tip_loop_first_hit (s : StoreIface) (pre : List (Nat × List Nat))
    (p : Nat × List Nat) (post : List (Nat × List Nat)) (seq : Nat)
    (hpre : ∀ q ∈ pre, s.find_wal_seq q = Except.ok none)
    (hp : s.find_wal_seq p = Except.ok (some seq)) :
    follow_tip_loop s (pre ++ p :: post) = Except.ok (some seq) := by
  induction pre with
  | nil => simp [follow_tip_loop, hp]
  | cons a t ih =>
    have ha : s.find_wal_seq a = Except.ok none := hpre a (List.mem_cons_self a t)
    simp only [List.cons_append, follow_tip_loop, ha]
    exact ih (fun q hq => hpre q (List.mem_cons_of_mem a hq))

theorem follow_tip_loop_all_none (s : StoreIface) (ps : List (Nat × List Nat))
    (hall : ∀ p ∈ ps, s.find_wal_seq p = Except.ok none) :
    follow_tip_loop s ps
      = Except.error (Status.notFound "no intersect found in mutable part of chain") := by
  induction ps with
  | nil => rfl
  | cons a t ih =>
    have ha : s.find_wal_seq a = Except.ok none := hall a (List.mem_cons_self a t)
    simp only [follow_tip_loop, ha]
    exact ih (fun p hp => hall p (List.mem_cons_of_mem a hp))

/-- C2: with an empty candidate list `follow_tip` starts the RollStream
cursor with no explicit sequence number (from the beginning of the WAL);
otherwise candidates are tried in client order and the first one for which
`find_wal_seq` returns a sequence number determines the cursor, with
whatever comes later never affecting the result. -/
theorem C2_follow_tip_intersection (s : StoreIface) (req : FollowTipRequest)
    (ps : List (Nat × List Nat)) (hps : intersects_of req = some ps) :
    (ps = [] → follow_tip s req = some (Except.ok none)) ∧
    (∀ pre p post seq, ps = pre ++ p :: post →
      (∀ q ∈ pre, s.find_wal_seq q = Except.ok none) →
      s.find_wal_seq p = Except.ok (some seq) →
      follow_tip s req = some (Except.ok (some seq))) := by
  constructor
  · intro hnil
    subst hnil
    unfold follow_tip
    rw [hps]
  · intro pre p post seq hsplit hpre hp
    have hne : ps ≠ [] := by
      rw [hsplit]
      exact List.append_ne_nil_of_right_ne_nil pre (List.cons_ne_nil p post)
    rw [follow_tip_eq_loop s req ps hps hne, hsplit,
      follow_tip_loop_first_hit s pre p post seq hpre hp]

/-- C2 witness: over `wStore`, candidates at slots 4, 5, 9 (all 32-byte
hashes) yield the cursor of the first resolvable candidate (slot 5,
sequence 7), and the empty candidate list yields the cursor `none`. -/
theorem C2_follow_tip_intersection_witness :
    follow_tip wStore
        { intersect := [{ index := 4, hash := h32 0 },
                        { index := 5, hash := h32 1 },
                        { index := 9, hash := h32 2 }] }
      = some (Except.ok (some 7)) ∧
    follow_tip wStore { intersect := [] } = some (Except.ok none) := by
  constructor
  · exact (C2_follow_tip_intersection wStore
      { intersect := [{ index := 4, hash := h32 0 },
                      { index := 5, hash := h32 1 },
                      { index := 9, hash := h32 2 }] }
      [(4, h32 0), (5, h32 1), (9, h32 2)] (by decide)).2
      [(4, h32 0)] (5, h32 1) [(9, h32 2)] 7 rfl (by decide) (by decide)
  · exact (C2_follow_tip_intersection wStore { intersect := [] } [] (by decide)).1 rfl

/-- C3: with a non-empty candidate list in which no candidate resolves to a
WAL sequence number, `follow_tip` fails with the not-found status, which is
distinct from any internal error, and no stream cursor is produced. -/
theorem C3_follow_tip_not_found (s : StoreIface) (req : FollowTipRequest)
    (ps : List (Nat × List Nat)) (hps : intersects_of req = some ps) (hne : ps ≠ [])
    (hall : ∀ p ∈ ps, s.find_wal_seq p = Except.ok none) :
    follow_tip s req
      = some (Except.error (Status.notFound "no intersect found in mutable part of chain")) ∧
    (∀ msg, (Status.notFound "no intersect found in mutable part of chain") ≠ Status.internal msg) ∧
    (∀ cursor, follow_tip s req ≠ some (Except.ok cursor)) := by
  have hmain : follow_tip s req
      = some (Except.error (Status.notFound "no intersect found in mutable part of chain")) := by
    rw [follow_tip_eq_loop s req ps hps hne, follow_tip_loop_all_none s ps hall]
  refine ⟨hmain, fun msg h => Status.noConfusion h, fun cursor hcontra => ?_⟩
  rw [hmain] at hcontra
  simp at hcontra

/-- C3 witness: over `wStore`, a single unresolvable candidate (slot 1)
fails with the not-found status. -/
theorem C3_follow_tip_not_found_witness :
    follow_tip wStore { intersect := [{ index := 1, hash := h32 3 }] }
      = some (Except.error (Status.notFound "no intersect found in mutable part of chain")) ∧
    (∀ msg, (Status.notFound "no intersect found in mutable part of chain") ≠ Status.internal msg) ∧
    (∀ cursor, follow_tip wStore { intersect := [{ index := 1, hash := h32 3 }] }
        ≠ some (Except.ok cursor)) :=
  C3_follow_tip_not_found wStore { intersect := [{ index := 1, hash := h32 3 }] }
    [(1, h32 3)] (by decide) (by decide) (by decide)

/-- The lookup outcome for one requested hash when the storage layer does
not fail: the stored content when the hash is present. -/
def get_opt (s : StoreIface) (r : BlockRef) : Option (List Nat) :=
  match s.get_block r.hash with
  | Except.ok o => o
  | Except.error _ => none

/-- The blocks a FetchBlock request finds: the contents of the requested
hashes that resolve, in request order, the unresolved ones omitted. -/
def found_blocks (s : StoreIface) (refs : List BlockRef) : List (List Nat) :=
  refs.filterMap (get_opt s)

theorem bytes_to_hash_of_len32 (raw : List Nat) (h : raw.length = 32) :
    bytes_to_hash raw = some raw := by
  unfold bytes_to_hash
  rw [if_pos h]

theorem fetch_collect_all_ok (s : StoreIface) (refs : List BlockRef)
    (hlen : ∀ r ∈ refs, r.hash.length = 32)
    (hok : ∀ r ∈ refs, ∃ o, s.get_block r.hash = Except.ok o) :
    fetch_collect s refs = some (Except.ok (refs.map (get_opt s))) := by
  induction refs with
  | nil => rfl
  | cons r rest ih =>
    have hr : bytes_to_hash r.hash = some r.hash :=
      bytes_to_hash_of_len32 r.hash (hlen r (List.mem_cons_self r rest))
    obtain ⟨o, ho⟩ := hok r (List.mem_cons_self r rest)
    have hrest := ih (fun q hq => hlen q (List.mem_cons_of_mem r hq))
      (fun q hq => hok q (List.mem_cons_of_mem r hq))
    have hgo : get_opt s r = o := by unfold get_opt; rw [ho]
    simp only [fetch_collect, hr, ho, hrest, List.map_cons, hgo]

theorem fetch_collect_error (s : StoreIface) (refs : List BlockRef)
    (hlen : ∀ r ∈ refs, r.hash.length = 32)
    (herr : ∃ r ∈ refs, ∃ e, s.get_block r.hash = Except.error e) :
    ∃ e, fetch_collect s refs = some (Except.error e) := by
  induction refs with
  | nil =>
    obtain ⟨r, hr, _⟩ := herr
    exact absurd hr (List.not_mem_nil r)
  | cons r rest ih =>
    have hr : bytes_to_hash r.hash = some r.hash :=
      bytes_to_hash_of_len32 r.hash (hlen r (List.mem_cons_self r rest))
    cases hgb : s.get_block r.hash with
    | error e => exact ⟨e, by simp only [fetch_collect, hr, hgb]⟩
    | ok o =>
      have herr2 : ∃ q ∈ rest, ∃ e, s.get_block q.hash = Except.error e := by
        obtain ⟨q, hq, e, he⟩ := herr
        rcases List.mem_cons.mp hq with hqr | hqm
        · subst hqr
          rw [hgb] at he
          simp at he
        · exact ⟨q, hqm, e, he⟩
      obtain ⟨e, he⟩ := ih (fun q hq => hlen q (List.mem_cons_of_mem r hq)) herr2
      exact ⟨e, by simp only [fetch_collect, hr, hgb, he]⟩

theorem fetch_collect_isSome (s : StoreIface) (refs : List BlockRef)
    (hlen : ∀ r ∈ refs, r.hash.length = 32) :
    (fetch_collect s refs).isSome := by
  induction refs with
  | nil => rfl
  | cons r rest ih =>
    have hr : bytes_to_hash r.hash = some r.hash :=
      bytes_to_hash_of_len32 r.hash (hlen r (List.mem_cons_self r rest))
    have hrest := ih (fun q hq => hlen q (List.mem_cons_of_mem r hq))
    cases hgb : s.get_block r.hash with
    | error e => simp only [fetch_collect, hr, hgb, Option.isSome_some]
    | ok o =>
      simp only [fetch_collect, hr, hgb]
      cases hfc : fetch_collect s rest with
      | none => rw [hfc] at hrest; simp at hrest
      | some x => cases x <;> simp

theorem collect_points_isSome (ps : List BlockRef)
    (hlen : ∀ r ∈ ps, r.hash.length = 32) :
    (collect_points ps).isSome := by
  induction ps with
  | nil => rfl
  | cons r rest ih =>
    have hr : bytes_to_hash r.hash = some r.hash :=
      bytes_to_hash_of_len32 r.hash (hlen r (List.mem_cons_self r rest))
    have hrest := ih (fun q hq => hlen q (List.mem_cons_of_mem r hq))
    simp only [collect_points, hr]
    cases hcp : collect_points rest with
    | none => rw [hcp] at hrest; simp at hrest
    | some x => simp

/-- C7: with well-formed 32-byte hashes, when no `get_block` lookup fails at
the storage layer the response contains exactly the envelopes of the hashes
that were found, each unresolved hash silently omitted; when any lookup
fails at the storage layer the whole call fails with an internal error. -/
theorem C7_fetch_block_best_effort (s : StoreIface) (refs : List BlockRef)
    (hlen : ∀ r ∈ refs, r.hash.length = 32) :
    ((∀ r ∈ refs, ∃ o, s.get_block r.hash = Except.ok o) →
      fetch_block s refs
        = some (Except.ok ((found_blocks s refs).map raw_to_anychain))) ∧
    ((∃ r ∈ refs, ∃ e, s.get_block r.hash = Except.error e) →
      fetch_block s refs = some (Except.error (Status.internal "cant query block"))) := by
  constructor
  · intro hok
    have hfm : (refs.map (get_opt s)).filterMap id = found_blocks s refs := by
      rw [List.filterMap_map]
      rfl
    unfold fetch_block
    rw [fetch_collect_all_ok s refs hlen hok]
    show some (Except.ok (((refs.map (get_opt s)).filterMap id).map raw_to_anychain))
      = some (Except.ok ((found_blocks s refs).map raw_to_anychain))
    rw [hfm]
  · intro herr
    obtain ⟨e, he⟩ := fetch_collect_error s refs hlen herr
    unfold fetch_block
    rw [he]

/-- A store where exactly the hash `h32 0` has content and no lookup fails
at the storage layer. -/
def wStoreFound : StoreIface where
  get_block := fun h => Except.ok (if h = h32 0 then some [5] else none)
  read_chain_page := fun _ _ => Except.ok []
  find_wal_seq := fun _ => Except.ok none

/-- A store whose lookups fail at the storage layer for the hash `h32 1`. -/
def wStoreErr : StoreIface where
  get_block := fun h => if h = h32 1 then Except.error () else Except.ok none
  read_chain_page := fun _ _ => Except.ok []
  find_wal_seq := fun _ => Except.ok none

/-- C7 witness: requesting a present and an absent hash returns only the
present one; requesting a hash whose lookup fails at the storage layer
fails the whole call with an internal error. -/
theorem C7_fetch_block_best_effort_witness :
    fetch_block wStoreFound [{ index := 0, hash := h32 0 }, { index := 0, hash := h32 9 }]
      = some (Except.ok [raw_to_anychain [5]]) ∧
    fetch_block wStoreErr [{ index := 0, hash := h32 1 }]
      = some (Except.error (Status.internal "cant query block")) := by
  constructor
  · have h := (C7_fetch_block_best_effort wStoreFound
      [{ index := 0, hash := h32 0 }, { index := 0, hash := h32 9 }] (by decide)).1
      (fun r hr => ⟨_, rfl⟩)
    rw [h]
    decide
  · exact (C7_fetch_block_best_effort wStoreErr [{ index := 0, hash := h32 1 }] (by decide)).2
      ⟨{ index := 0, hash := h32 1 }, by decide, (), by decide⟩

/-- C8: when every supplied hash is exactly 32 bytes the panic branch of
`bytes_to_hash` is unreachable (both handlers return a value); a request
containing a hash of any other length makes the handler panic (modelled as
`none`) instead of returning a protocol error. -/
theorem C8_bytes_to_hash_partiality (s : StoreIface) (refs : List BlockRef)
    (req : FollowTipRequest)
    (hrefs : ∀ r ∈ refs, r.hash.length = 32)
    (hreq : ∀ r ∈ req.intersect, r.hash.length = 32) :
    (fetch_block s refs).isSome ∧ (follow_tip s req).isSome ∧
    (∀ s2 : StoreIface, fetch_block s2 [{ index := 0, hash := [0] }] = none) ∧
    (∀ s2 : StoreIface, follow_tip s2 { intersect := [{ index := 0, hash := [0] }] } = none) := by
  refine ⟨?_, ?_, fun s2 => rfl, fun s2 => rfl⟩
  · unfold fetch_block
    have hsome := fetch_collect_isSome s refs hrefs
    cases hfc : fetch_collect s refs with
    | none => rw [hfc] at hsome; simp at hsome
    | some x => cases x <;> simp
  · unfold follow_tip intersects_of
    have hsome := collect_points_isSome req.intersect hreq
    cases hcp : collect_points req.intersect with
    | none => rw [hcp] at hsome; simp at hsome
    | some ps => cases ps <;> simp

/-- C8 witness: 32-byte hashes make both handlers total on `wStore`, while a
1-byte hash makes each handler panic. -/
theorem C8_bytes_to_hash_partiality_witness :
    (fetch_block wStore [{ index := 0, hash := h32 4 }]).isSome ∧
    (follow_tip wStore { intersect := [{ index := 2, hash := h32 5 }] }).isSome ∧
    fetch_block wStore [{ index := 0, hash := [0] }] = none ∧
    follow_tip wStore { intersect := [{ index := 0, hash := [0] }] } = none := by
  have h := C8_bytes_to_hash_partiality wStore [{ index := 0, hash := h32 4 }]
    { intersect := [{ index := 2, hash := h32 5 }] } (by decide) (by decide)
  exact ⟨h.1, h.2.1, h.2.2.1 wStore, h.2.2.2 wStore⟩

/-- A concrete healthy chain with canonical entries at slots 1, 2, 3 and
content `7 :: hash` for every hash. -/
def ex_chain : ChainState where
  index := [(1, [1]), (2, [2]), (3, [3])]
  blocks := fun h => some (7 :: h)

/-- A concrete inconsistent chain: slot 2 is listed in the index but its
content is missing from the store. -/
def ex_missing : ChainState where
  index := [(1, [1]), (2, [2])]
  blocks := fun h => if h = [2] then none else some (7 :: h)

theorem get_blocks_length (s : StoreIface) :
    ∀ (l : List (Nat × List Nat)) (os : List (Option (List Nat))),
      get_blocks s l = Except.ok os → os.length = l.length := by
  intro l
  induction l with
  | nil =>
    intro os h
    simp only [get_blocks] at h
    injection h with h
    subst h
    rfl
  | cons e rest ih =>
    intro os h
    simp only [get_blocks] at h
    cases hgb : s.get_block e.2 with
    | error err => rw [hgb] at h; simp at h
    | ok o =>
      rw [hgb] at h
      cases hgr : get_blocks s rest with
      | error err => rw [hgr] at h; simp at h
      | ok os2 =>
        rw [hgr] at h
        injection h with h
        subst h
        simp [ih os2 hgr]

theorem require_blocks_length :
    ∀ (l : List (Option (List Nat))) (bs : List (List Nat)),
      require_blocks l = Except.ok bs → bs.length = l.length := by
  intro l
  induction l with
  | nil =>
    intro bs h
    simp only [require_blocks] at h
    injection h with h
    subst h
    rfl
  | cons o rest ih =>
    intro bs h
    cases o with
    | none =>
      simp only [require_blocks] at h
      simp at h
    | some b =>
      simp only [require_blocks] at h
      cases hr : require_blocks rest with
      | error e => rw [hr] at h; simp [Except.map] at h
      | ok bs2 =>
        rw [hr] at h
        simp only [Except.map] at h
        injection h with h
        subst h
        simp [ih bs2 hr]

theorem resolve_blocks_length (s : StoreIface) (l : List (Nat × List Nat))
    (raws : List (List Nat)) (h : resolve_blocks s l = Except.ok raws) :
    raws.length = l.length := by
  unfold resolve_blocks at h
  cases hgb : get_blocks s l with
  | error e => rw [hgb] at h; simp at h
  | ok opts =>
    rw [hgb] at h
    rw [require_blocks_length opts raws h, get_blocks_length s l opts hgb]

/-- C4: `dump_history` asks the chain page for `max_items + 1` entries
starting at the request's start slot; a full page means the last entry is
withheld and its point becomes the continuation token, a short page means no
token; either way at most `max_items` blocks are returned. -/
theorem C4_dump_history_extra_item (s : StoreIface) (msg : DumpHistoryRequest)
    (page : List (Nat × List Nat)) (raws : List (List Nat))
    (hpage : s.read_chain_page (start_slot msg) (msg.max_items + 1) = Except.ok page)
    (hlen : page.length ≤ msg.max_items + 1)
    (hres : resolve_blocks s (kept_page page (msg.max_items + 1)) = Except.ok raws) :
    dump_history s msg
      = Except.ok { block := raws.map raw_to_anychain,
                    next_token := next_token_of page (msg.max_items + 1) } ∧
    (page.length = msg.max_items + 1 →
      next_token_of page (msg.max_items + 1)
          = page.getLast?.map (fun e => { index := e.1, hash := e.2 }) ∧
      kept_page page (msg.max_items + 1) = page.dropLast ∧
      raws.length = msg.max_items) ∧
    (page.length ≠ msg.max_items + 1 →
      next_token_of page (msg.max_items + 1) = none ∧
      kept_page page (msg.max_items + 1) = page) ∧
    raws.length ≤ msg.max_items := by
  have hraws := resolve_blocks_length s (kept_page page (msg.max_items + 1)) raws hres
  refine ⟨?_, ?_, ?_, ?_⟩
  · simp only [dump_history, hpage, hres]
  · intro heq
    refine ⟨?_, ?_, ?_⟩
    · unfold next_token_of
      rw [if_pos heq]
    · unfold kept_page
      rw [if_pos heq]
    · rw [hraws]
      unfold kept_page
      rw [if_pos heq, List.length_dropLast, heq]
      rfl
  · intro hne
    constructor
    · unfold next_token_of
      rw [if_neg hne]
    · unfold kept_page
      rw [if_neg hne]
  · by_cases heq : page.length = msg.max_items + 1
    · rw [hraws]
      unfold kept_page
      rw [if_pos heq, List.length_dropLast, heq]
      simp
    · rw [hraws]
      unfold kept_page
      rw [if_neg heq]
      exact Nat.lt_succ_iff.mp (Nat.lt_of_le_of_ne hlen heq)

/-- C4 witness: over the healthy example chain, `max_items = 1` reads two
entries, returns one block and withholds the entry at slot 2 as the
continuation token. -/
theorem C4_dump_history_extra_item_witness :
    dump_history (store_of ex_chain) { start_token := none, max_items := 1 }
      = Except.ok { block := ([[7, 1]] : List (List Nat)).map raw_to_anychain,
                    next_token := next_token_of [(1, [1]), (2, [2])] 2 } ∧
    (([(1, [1]), (2, [2])] : List (Nat × List Nat)).length = 2 →
      next_token_of [(1, [1]), (2, [2])] 2
          = ([(1, [1]), (2, [2])] : List (Nat × List Nat)).getLast?.map
              (fun e => { index := e.1, hash := e.2 }) ∧
      kept_page [(1, [1]), (2, [2])] 2
          = ([(1, [1]), (2, [2])] : List (Nat × List Nat)).dropLast ∧
      ([[7, 1]] : List (List Nat)).length = 1) ∧
    (([(1, [1]), (2, [2])] : List (Nat × List Nat)).length ≠ 2 →
      next_token_of [(1, [1]), (2, [2])] 2 = none ∧
      kept_page [(1, [1]), (2, [2])] 2 = [(1, [1]), (2, [2])]) ∧
    ([[7, 1]] : List (List Nat)).length ≤ 1 :=
  C4_dump_history_extra_item (store_of ex_chain) { start_token := none, max_items := 1 }
    [(1, [1]), (2, [2])] [[7, 1]] (by decide) (by decide) (by decide)

theorem get_blocks_ok_none_mem (s : StoreIface) :
    ∀ (l : List (Nat × List Nat)) (os : List (Option (List Nat))),
      get_blocks s l = Except.ok os →
      (∃ e ∈ l, s.get_block e.2 = Except.ok none) → none ∈ os := by
  intro l
  induction l with
  | nil =>
    intro os h hex
    obtain ⟨e, he, _⟩ := hex
    exact absurd he (List.not_mem_nil e)
  | cons a rest ih =>
    intro os h hex
    simp only [get_blocks] at h
    cases hgb : s.get_block a.2 with
    | error err => rw [hgb] at h; simp at h
    | ok o =>
      rw [hgb] at h
      cases hgr : get_blocks s rest with
      | error err => rw [hgr] at h; simp at h
      | ok os2 =>
        rw [hgr] at h
        injection h with h
        subst h
        obtain ⟨e, he, hnone⟩ := hex
        rcases List.mem_cons.mp he with hea | hm
        · subst hea
          rw [hgb] at hnone
          injection hnone with hnone
          rw [hnone]
          exact List.mem_cons_self none os2
        · exact List.mem_cons_of_mem o (ih os2 hgr ⟨e, hm, hnone⟩)

theorem require_blocks_none_mem (l : List (Option (List Nat))) (h : none ∈ l) :
    require_blocks l = Except.error (Status.internal "cant query history") := by
  induction l with
  | nil => exact absurd h (List.not_mem_nil none)
  | cons o rest ih =>
    cases o with
    | none => rfl
    | some b =>
      have hm : none ∈ rest := by
        rcases List.mem_cons.mp h with h1 | h2
        · exact absurd h1 (by simp)
        · exact h2
      simp only [require_blocks, ih hm, Except.map]

theorem resolve_blocks_missing (s : StoreIface) (l : List (Nat × List Nat))
    (hmiss : ∃ e ∈ l, s.get_block e.2 = Except.ok none) :
    resolve_blocks s l = Except.error (Status.internal "cant query history") := by
  unfold resolve_blocks
  cases hgb : get_blocks s l with
  | error e => rfl
  | ok opts =>
    exact require_blocks_none_mem opts (get_blocks_ok_none_mem s l opts hgb hmiss)

/-- C6: when any hash in the kept page has no resolvable content
(`get_block` returns `None`), the whole `dump_history` call fails with an
internal error; no successful response with a silently shortened page is
ever produced. -/
theorem C6_dump_history_inconsistent (s : StoreIface) (msg : DumpHistoryRequest)
    (page : List (Nat × List Nat))
    (hpage : s.read_chain_page (start_slot msg) (msg.max_items + 1) = Except.ok page)
    (hmiss : ∃ e ∈ kept_page page (msg.max_items + 1), s.get_block e.2 = Except.ok none) :
    dump_history s msg = Except.error (Status.internal "cant query history") ∧
    ∀ resp, dump_history s msg ≠ Except.ok resp := by
  have hres := resolve_blocks_missing s (kept_page page (msg.max_items + 1)) hmiss
  have hmain : dump_history s msg = Except.error (Status.internal "cant query history") := by
    simp only [dump_history, hpage, hres]
  refine ⟨hmain, fun resp hcontra => ?_⟩
  rw [hmain] at hcontra
  simp at hcontra

/-- C6 witness: over the chain whose slot-2 content is missing, the whole
page fails with an internal error. -/
theorem C6_dump_history_inconsistent_witness :
    dump_history (store_of ex_missing) { start_token := none, max_items := 2 }
      = Except.error (Status.internal "cant query history") ∧
    ∀ resp, dump_history (store_of ex_missing) { start_token := none, max_items := 2 }
        ≠ Except.ok resp :=
  C6_dump_history_inconsistent (store_of ex_missing) { start_token := none, max_items := 2 }
    [(1, [1]), (2, [2])] (by decide) ⟨(2, [2]), by decide, by decide⟩

/-- The start slot a token induces, as computed by `dump_history`. -/
def from_of (tok : Option BlockRef) : Nat :=
  (tok.map BlockRef.index).getD 0

/-- The canonical entries at or after a slot, in store order. -/
def suffix_at (st : ChainState) (slot : Nat) : List (Nat × List Nat) :=
  st.index.filter (fun e => decide (slot ≤ e.1))

theorem read_page_model_eq_suffix (st : ChainState) (slot len : Nat) :
    read_page_model st slot len = (suffix_at st slot).take len := rfl

theorem filter_ge_filter_ge (l : List (Nat × List Nat)) (a b : Nat) (hab : a ≤ b) :
    (l.filter (fun e => decide (a ≤ e.1))).filter (fun e => decide (b ≤ e.1))
      = l.filter (fun e => decide (b ≤ e.1)) := by
  induction l with
  | nil => rfl
  | cons x t ih =>
    by_cases hb : b ≤ x.1
    · have ha : a ≤ x.1 := le_trans hab hb
      simp [List.filter_cons, ha, hb, ih]
    · by_cases ha : a ≤ x.1 <;> simp [List.filter_cons, ha, hb, ih]

theorem filter_ge_get_eq_drop :
    ∀ (l : List (Nat × List Nat)), l.Pairwise (fun a b => a.1 < b.1) →
      ∀ (k : Nat) (hk : k < l.length),
        l.filter (fun e => decide ((l.get ⟨k, hk⟩).1 ≤ e.1)) = l.drop k := by
  intro l
  induction l with
  | nil =>
    intro _ k hk
    exact absurd hk (Nat.not_lt_zero k)
  | cons x t ih =>
    intro hp k hk
    cases k with
    | zero =>
      apply List.filter_eq_self.mpr
      intro e he
      rcases List.mem_cons.mp he with hex | hm
      · subst hex
        simp
      · have hlt : x.1 < e.1 := (List.pairwise_cons.mp hp).1 e hm
        simp [Nat.le_of_lt hlt]
    | succ k2 =>
      have hk2 : k2 < t.length := Nat.lt_of_succ_lt_succ hk
      have hget : (x :: t).get ⟨k2 + 1, hk⟩ = t.get ⟨k2, hk2⟩ := rfl
      rw [hget]
      have hmem : t.get ⟨k2, hk2⟩ ∈ t := List.get_mem t k2 hk2
      have hlt : x.1 < (t.get ⟨k2, hk2⟩).1 := (List.pairwise_cons.mp hp).1 _ hmem
      have hx : ¬ ((t.get ⟨k2, hk2⟩).1 ≤ x.1) := Nat.not_le.mpr hlt
      rw [List.filter_cons_of_neg (by simpa using hx), List.drop_succ_cons]
      exact ih (List.pairwise_cons.mp hp).2 k2 hk2

theorem suffix_at_zero (st : ChainState) : suffix_at st 0 = st.index := by
  apply List.filter_eq_self.mpr
  intro a _
  simp

theorem get_blocks_store_of (st : ChainState) :
    ∀ l : List (Nat × List Nat),
      get_blocks (store_of st) l = Except.ok (l.map (fun e => st.blocks e.2)) := by
  intro l
  induction l with
  | nil => rfl
  | cons e rest ih =>
    simp only [get_blocks]
    rw [ih]
    rfl

theorem require_blocks_of_map_some (g : (Nat × List Nat) → List Nat) :
    ∀ l : List (Nat × List Nat),
      require_blocks (l.map (fun e => some (g e))) = Except.ok (l.map g) := by
  intro l
  induction l with
  | nil => rfl
  | cons e rest ih =>
    simp only [List.map_cons, require_blocks, ih, Except.map]

theorem resolve_blocks_store_of (st : ChainState) (f : List Nat → List Nat)
    (l : List (Nat × List Nat)) (hl : ∀ e ∈ l, st.blocks e.2 = some (f e.2)) :
    resolve_blocks (store_of st) l = Except.ok (l.map (fun e => f e.2)) := by
  unfold resolve_blocks
  rw [get_blocks_store_of st l]
  show require_blocks (l.map (fun e => st.blocks e.2)) = Except.ok (l.map (fun e => f e.2))
  have hmap : l.map (fun e => st.blocks e.2) = l.map (fun e => some (f e.2)) :=
    List.map_congr_left hl
  rw [hmap]
  exact require_blocks_of_map_some (fun e => f e.2) l

theorem dump_history_store_of_step (st : ChainState) (mi : Nat) (tok : Option BlockRef)
    (f : List Nat → List Nat)
    (hblocks : ∀ e ∈ st.index, st.blocks e.2 = some (f e.2)) :
    ((suffix_at st (from_of tok)).length < mi + 1 →
      dump_history (store_of st) { start_token := tok, max_items := mi }
        = Except.ok { block := (suffix_at st (from_of tok)).map (fun e => raw_to_anychain (f e.2)),
                      next_token := none }) ∧
    (∀ hk : mi < (suffix_at st (from_of tok)).length,
      dump_history (store_of st) { start_token := tok, max_items := mi }
        = Except.ok
            { block := ((suffix_at st (from_of tok)).take mi).map (fun e => raw_to_anychain (f e.2)),
              next_token := some { index := ((suffix_at st (from_of tok)).get ⟨mi, hk⟩).1,
                                   hash := ((suffix_at st (from_of tok)).get ⟨mi, hk⟩).2 } }) := by
  have hpage : (store_of st).read_chain_page
      (start_slot { start_token := tok, max_items := mi }) (mi + 1)
      = Except.ok ((suffix_at st (from_of tok)).take (mi + 1)) := rfl
  constructor
  · intro hlt
    have hle : (suffix_at st (from_of tok)).length ≤ mi + 1 := Nat.le_of_lt hlt
    have htake : (suffix_at st (from_of tok)).take (mi + 1) = suffix_at st (from_of tok) :=
      List.take_of_length_le hle
    have hne : (suffix_at st (from_of tok)).length ≠ mi + 1 := Nat.ne_of_lt hlt
    have hkept : kept_page (suffix_at st (from_of tok)) (mi + 1) = suffix_at st (from_of tok) := by
      unfold kept_page
      rw [if_neg hne]
    have hnext : next_token_of (suffix_at st (from_of tok)) (mi + 1) = none := by
      unfold next_token_of
      rw [if_neg hne]
    have hres : resolve_blocks (store_of st) (suffix_at st (from_of tok))
        = Except.ok ((suffix_at st (from_of tok)).map (fun e => f e.2)) :=
      resolve_blocks_store_of st f _ (fun e he => hblocks e (List.mem_filter.mp he).1)
    have hd : dump_history (store_of st) { start_token := tok, max_items := mi }
        = Except.ok
            { block := ((suffix_at st (from_of tok)).map (fun e => f e.2)).map raw_to_anychain,
              next_token := next_token_of (suffix_at st (from_of tok)) (mi + 1) } := by
      simp only [dump_history, hpage, htake, hkept, hres]
    rw [hd, hnext, List.map_map]
    rfl
  · intro hk
    have hsle : mi + 1 ≤ (suffix_at st (from_of tok)).length := Nat.succ_le_of_lt hk
    have hplen : ((suffix_at st (from_of tok)).take (mi + 1)).length = mi + 1 := by
      rw [List.length_take]
      exact Nat.min_eq_left hsle
    have hkept : kept_page ((suffix_at st (from_of tok)).take (mi + 1)) (mi + 1)
        = (suffix_at st (from_of tok)).take mi := by
      unfold kept_page
      rw [if_pos hplen, List.dropLast_eq_take, hplen, List.take_take,
        Nat.min_eq_left (by omega)]
      rfl
    have hlast : ((suffix_at st (from_of tok)).take (mi + 1)).getLast?
        = some ((suffix_at st (from_of tok)).get ⟨mi, hk⟩) := by
      rw [List.getLast?_eq_getElem?, hplen]
      show ((suffix_at st (from_of tok)).take (mi + 1))[mi]? = _
      rw [List.getElem?_take_of_lt (Nat.lt_succ_self mi), List.getElem?_eq_getElem hk,
        List.get_eq_getElem]
    have hnext : next_token_of ((suffix_at st (from_of tok)).take (mi + 1)) (mi + 1)
        = some { index := ((suffix_at st (from_of tok)).get ⟨mi, hk⟩).1,
                 hash := ((suffix_at st (from_of tok)).get ⟨mi, hk⟩).2 } := by
      unfold next_token_of
      rw [if_pos hplen, hlast]
      rfl
    have hres : resolve_blocks (store_of st) ((suffix_at st (from_of tok)).take mi)
        = Except.ok (((suffix_at st (from_of tok)).take mi).map (fun e => f e.2)) :=
      resolve_blocks_store_of st f _ (fun e he =>
        hblocks e (List.mem_filter.mp (List.mem_of_mem_take he)).1)
    have hd : dump_history (store_of st) { start_token := tok, max_items := mi }
        = Except.ok
            { block := (((suffix_at st (from_of tok)).take mi).map (fun e => f e.2)).map raw_to_anychain,
              next_token := next_token_of ((suffix_at st (from_of tok)).take (mi + 1)) (mi + 1) } := by
      simp only [dump_history, hpage, hkept, hres]
    rw [hd, hnext, List.map_map]
    rfl

theorem suffix_at_get_eq_drop (st : ChainState)
    (hs : st.index.Pairwise (fun a b => a.1 < b.1))
    (slot : Nat) (k : Nat) (hk : k < (suffix_at st slot).length) :
    suffix_at st ((suffix_at st slot).get ⟨k, hk⟩).1 = (suffix_at st slot).drop k := by
  have hmem : (suffix_at st slot).get ⟨k, hk⟩ ∈ suffix_at st slot :=
    List.get_mem (suffix_at st slot) k hk
  have hslot : slot ≤ ((suffix_at st slot).get ⟨k, hk⟩).1 := by
    have := (List.mem_filter.mp hmem).2
    exact of_decide_eq_true this
  have hsp : (suffix_at st slot).Pairwise (fun a b => a.1 < b.1) := by
    unfold suffix_at
    exact hs.filter (fun e => decide (slot ≤ e.1))
  have h1 : suffix_at st ((suffix_at st slot).get ⟨k, hk⟩).1
      = (suffix_at st slot).filter
          (fun e => decide (((suffix_at st slot).get ⟨k, hk⟩).1 ≤ e.1)) := by
    unfold suffix_at
    exact (filter_ge_filter_ge st.index slot _ hslot).symm
  rw [h1]
  exact filter_ge_get_eq_drop (suffix_at st slot) hsp k hk

theorem dump_from_token_collects (st : ChainState) (mi : Nat) (hmi : 1 ≤ mi)
    (hs : st.index.Pairwise (fun a b => a.1 < b.1))
    (f : List Nat → List Nat)
    (hblocks : ∀ e ∈ st.index, st.blocks e.2 = some (f e.2)) :
    ∀ (fuel : Nat) (tok : Option BlockRef),
      (suffix_at st (from_of tok)).length + 1 ≤ fuel →
      dump_from_token st mi fuel tok
        = (suffix_at st (from_of tok)).map (fun e => raw_to_anychain (f e.2)) := by
  intro fuel
  induction fuel with
  | zero =>
    intro tok hf
    exact absurd hf (by omega)
  | succ n ih =>
    intro tok hf
    by_cases hlt : (suffix_at st (from_of tok)).length < mi + 1
    · have hd := (dump_history_store_of_step st mi tok f hblocks).1 hlt
      simp only [dump_from_token, hd, List.append_nil]
    · have hk : mi < (suffix_at st (from_of tok)).length := by omega
      have hd := (dump_history_store_of_step st mi tok f hblocks).2 hk
      have hdrop : suffix_at st ((suffix_at st (from_of tok)).get ⟨mi, hk⟩).1
          = (suffix_at st (from_of tok)).drop mi :=
        suffix_at_get_eq_drop st hs (from_of tok) mi hk
      have hfn : (suffix_at st
          (from_of (some { index := ((suffix_at st (from_of tok)).get ⟨mi, hk⟩).1,
                           hash := ((suffix_at st (from_of tok)).get ⟨mi, hk⟩).2 }))).length + 1
          ≤ n := by
        show (suffix_at st ((suffix_at st (from_of tok)).get ⟨mi, hk⟩).1).length + 1 ≤ n
        rw [hdrop, List.length_drop]
        omega
      have hrec := ih (some { index := ((suffix_at st (from_of tok)).get ⟨mi, hk⟩).1,
                              hash := ((suffix_at st (from_of tok)).get ⟨mi, hk⟩).2 }) hfn
      simp only [dump_from_token, hd]
      rw [hrec]
      show ((suffix_at st (from_of tok)).take mi).map (fun e => raw_to_anychain (f e.2))
          ++ (suffix_at st ((suffix_at st (from_of tok)).get ⟨mi, hk⟩).1).map
              (fun e => raw_to_anychain (f e.2))
        = (suffix_at st (from_of tok)).map (fun e => raw_to_anychain (f e.2))
    -- combine the take and drop halves
      rw [hdrop, ← List.map_append, List.take_append_drop]

/-- C5: over a sorted, fully-resolvable static store, concatenating all
pages obtained by following `next_token` until absent reproduces the full
canonical slot-ordered sequence with no duplicates and no omissions; in
particular over slots [1,2,3] with `max_items = 2` the first call returns
the blocks of slots 1 and 2 with a token at slot 3 and the second call
returns the block of slot 3 with no token. -/
theorem C5_dump_history_exhaustive (st : ChainState) (mi : Nat) (hmi : 1 ≤ mi)
    (hs : st.index.Pairwise (fun a b => a.1 < b.1))
    (f : List Nat → List Nat)
    (hblocks : ∀ e ∈ st.index, st.blocks e.2 = some (f e.2))
    (fuel : Nat) (hfuel : st.index.length + 1 ≤ fuel) :
    dump_from_token st mi fuel none = st.index.map (fun e => raw_to_anychain (f e.2)) ∧
    dump_history (store_of ex_chain) { start_token := none, max_items := 2 }
      = Except.ok { block := [raw_to_anychain [7, 1], raw_to_anychain [7, 2]],
                    next_token := some { index := 3, hash := [3] } } ∧
    dump_history (store_of ex_chain)
        { start_token := some { index := 3, hash := [3] }, max_items := 2 }
      = Except.ok { block := [raw_to_anychain [7, 3]], next_token := none } := by
  refine ⟨?_, by decide, by decide⟩
  have h := dump_from_token_collects st mi hmi hs f hblocks fuel none
  rw [show from_of none = 0 from rfl, suffix_at_zero] at h
  exact h hfuel

/-- C5 witness: over the example chain with slots [1,2,3] and `max_items =
2`, the full pagination yields exactly the three canonical blocks in slot
order, and the two concrete pages are as the claim describes. -/
theorem C5_dump_history_exhaustive_witness :
    dump_from_token ex_chain 2 4 none
        = ex_chain.index.map (fun e => raw_to_anychain (7 :: e.2)) ∧
    dump_history (store_of ex_chain) { start_token := none, max_items := 2 }
      = Except.ok { block := [raw_to_anychain [7, 1], raw_to_anychain [7, 2]],
                    next_token := some { index := 3, hash := [3] } } ∧
    dump_history (store_of ex_chain)
        { start_token := some { index := 3, hash := [3] }, max_items := 2 }
      = Except.ok { block := [raw_to_anychain [7, 3]], next_token := none } :=
  C5_dump_history_exhaustive ex_chain 2 (by decide) (by decide)
    (fun h => 7 :: h) (by decide) 4 (by decide)

theorem dump_history_zero_step (st : ChainState) (tok : Option BlockRef)
    (e : Nat × List Nat)
    (hhead : (suffix_at st (from_of tok)).head? = some e) :
    dump_history (store_of st) { start_token := tok, max_items := 0 }
      = Except.ok { block := [], next_token := some { index := e.1, hash := e.2 } } := by
  obtain ⟨rest, hsuf⟩ : ∃ rest, suffix_at st (from_of tok) = e :: rest := by
    cases hcase : suffix_at st (from_of tok) with
    | nil => rw [hcase] at hhead; simp at hhead
    | cons a r =>
      rw [hcase] at hhead
      simp only [List.head?_cons, Option.some.injEq] at hhead
      exact ⟨r, by rw [hhead]⟩
  have hpage : (store_of st).read_chain_page
      (start_slot { start_token := tok, max_items := 0 }) (0 + 1)
      = Except.ok [e] := by
    show Except.ok (read_page_model st (from_of tok) 1) = Except.ok [e]
    rw [read_page_model_eq_suffix, hsuf]
    rfl
  simp only [dump_history, hpage]
  rfl

/-- C9: a `max_items = 0` request over a store with at least one entry at or
after the start slot returns zero blocks and a continuation token equal to
that first entry's point; re-issuing the request with that token returns the
identical empty page, so the pagination loop never makes progress. -/
theorem C9_dump_history_zero_stall (st : ChainState)
    (hs : st.index.Pairwise (fun a b => a.1 < b.1))
    (tok : Option BlockRef) (e : Nat × List Nat)
    (hhead : (suffix_at st (from_of tok)).head? = some e) :
    dump_history (store_of st) { start_token := tok, max_items := 0 }
      = Except.ok { block := [], next_token := some { index := e.1, hash := e.2 } } ∧
    dump_history (store_of st)
        { start_token := some { index := e.1, hash := e.2 }, max_items := 0 }
      = Except.ok { block := [], next_token := some { index := e.1, hash := e.2 } } ∧
    ∀ fuel, dump_from_token st 0 fuel (some { index := e.1, hash := e.2 }) = [] := by
  have h1 := dump_history_zero_step st tok e hhead
  obtain ⟨rest, hsuf⟩ : ∃ rest, suffix_at st (from_of tok) = e :: rest := by
    cases hcase : suffix_at st (from_of tok) with
    | nil => rw [hcase] at hhead; simp at hhead
    | cons a r =>
      rw [hcase] at hhead
      simp only [List.head?_cons, Option.some.injEq] at hhead
      exact ⟨r, by rw [hhead]⟩
  have hmem_suf : e ∈ suffix_at st (from_of tok) := by
    rw [hsuf]
    exact List.mem_cons_self e rest
  have hmem : e ∈ st.index := (List.mem_filter.mp hmem_suf).1
  obtain ⟨⟨k, hk⟩, hget⟩ := List.mem_iff_get.mp hmem
  have hhead2 : (suffix_at st e.1).head? = some e := by
    have hfe : suffix_at st e.1 = st.index.drop k := by
      unfold suffix_at
      rw [← hget]
      exact filter_ge_get_eq_drop st.index hs k hk
    rw [hfe, List.head?_drop, List.getElem?_eq_getElem hk, ← hget]
    rfl
  have h2 := dump_history_zero_step st (some { index := e.1, hash := e.2 }) e hhead2
  refine ⟨h1, h2, ?_⟩
  intro fuel
  induction fuel with
  | zero => rfl
  | succ n ih =>
    simp only [dump_from_token, h2]
    simpa using ih

/-- C9 witness: over the example chain, a `max_items = 0` request from the
start returns no blocks and a token at slot 1, the same request with that
token returns the same answer, and five rounds of pagination collect
nothing. -/
theorem C9_dump_history_zero_stall_witness :
    dump_history (store_of ex_chain) { start_token := none, max_items := 0 }
      = Except.ok { block := [], next_token := some { index := 1, hash := [1] } } ∧
    dump_history (store_of ex_chain)
        { start_token := some { index := 1, hash := [1] }, max_items := 0 }
      = Except.ok { block := [], next_token := some { index := 1, hash := [1] } } ∧
    dump_from_token ex_chain 0 5 (some { index := 1, hash := [1] }) = [] := by
  have h := C9_dump_history_zero_stall ex_chain (by decide) none (1, [1]) (by decide)
  exact ⟨h.1, h.2.1, h.2.2 5⟩
